import Mathlib

/-! Verification of the card-synthesis and submission pipeline of
anki-copy-card-egui (src/main.rs).  Text is modelled as `List Char`;
the external automation API (fetch outcome, submission success) and the
HTML sanitizer are modelled as explicit parameters of the pipeline.
-/

/-- The five characters removed by the first stage of `create_audio_guide`,
`s.replace(&['(', ')', '{', '}', ' '], "")` in the source. -/
def isStripped (c : Char) : Bool :=
  c = '(' || c = ')' || c = '{' || c = '}' || c = ' '

/-- First stage of `create_audio_guide`: drop every occurrence of the five
characters of `isStripped`. -/
def stripChars (l : List Char) : List Char :=
  l.filter (fun c => !isStripped c)

/-- One left-to-right pass implementing
`Regex::new(r"\[[^\]]*\]").unwrap().replace_all(&s, "")` from the source:
state `none` scans normally; state `some acc` means an opening bracket has
been read and `acc` holds, reversed, the characters seen since.  A closing
bracket discards the whole buffered span; an opening bracket that is never
closed is emitted verbatim at the end, exactly as the regex leaves it in
place when no later closing bracket exists. -/
def rbAux : Option (List Char) → List Char → List Char
  | none, [] => []
  | some acc, [] => '[' :: acc.reverse
  | none, c :: rest =>
      if c = '[' then rbAux (some []) rest else c :: rbAux none rest
  | some acc, c :: rest =>
      if c = ']' then rbAux none rest else rbAux (some (c :: acc)) rest

/-- Second stage of `create_audio_guide`: remove every regex match of
`\[[^\]]*\]` from the character-stripped string. -/
def removeBrackets (l : List Char) : List Char := rbAux none l

/-- `fn create_audio_guide(s: &str) -> String`: strip the five characters,
then remove the bracketed spans from the already-stripped string. -/
def create_audio_guide (l : List Char) : List Char :=
  removeBrackets (stripChars l)

/-- Is there a closing bracket anywhere in the list? -/
def hasClose : List Char → Bool
  | [] => false
  | c :: rest => c == ']' || hasClose rest

/-- Is there an opening bracket that is followed, strictly later, by a
closing bracket?  Such a pair is exactly what a regex match consumes. -/
def badPair : List Char → Bool
  | [] => false
  | c :: rest => (c == '[' && hasClose rest) || badPair rest

/-- The input segment a scanner state stands for: nothing for `none`, the
pending opening bracket plus its buffered span for `some acc`. -/
def stRender : Option (List Char) → List Char
  | none => []
  | some acc => '[' :: acc.reverse

/-- Bracket-span removal as the claim C4 words it: each closing bracket is
paired with the closest unmatched opening bracket before it, and exactly the
paired spans are removed.  Frames on the stack hold the output accumulated
before each still-open bracket; popping a frame discards the whole span back
to the most recent open bracket, and unmatched brackets are kept. -/
def nearestPairGo : List Char → List (List Char) → List Char → List Char
  | [], stack, cur => stack.foldl (fun acc f => f ++ '[' :: acc) cur
  | c :: rest, stack, cur =>
      if c = '[' then nearestPairGo rest (cur :: stack) []
      else if c = ']' then
        match stack with
        | [] => nearestPairGo rest [] (cur ++ [']'])
        | f :: fs => nearestPairGo rest fs f
      else nearestPairGo rest stack (cur ++ [c])

/-- Bracket-span removal under the nearest-preceding-open-bracket pairing
described by claim C4, for comparison against `removeBrackets`. -/
def nearestPairRemoval (l : List Char) : List Char :=
  nearestPairGo l [] []

/-- `struct GuiAddCardsFields`: the five text fields of a submitted card. -/
structure GuiAddCardsFields where
  front : List Char
  back : List Char
  back_paragraph : List Char
  audio_guide : List Char
  audio : List Char
deriving DecidableEq

/-- `struct GuiCurrentCardFields`: the fields of the snapshot returned by the
guiCurrentCard request. -/
structure GuiCurrentCardFields where
  kanji : List Char
  kana : List Char
  sentence_front : List Char
  sentence_back : List Char
  picture : List Char
  kanken_audio : List Char
  kanken_level : List Char
  meaning : List Char
  diagram : List Char
deriving DecidableEq

/-- Outcome of the guiCurrentCard request in `AppState::fire`: the request
itself fails, the response carries no result, or the response carries the
current card's fields. -/
inductive FetchOutcome where
  | fetchErr : FetchOutcome
  | noResult : FetchOutcome
  | ok : GuiCurrentCardFields → FetchOutcome
deriving DecidableEq

/-- `str::trim`: drop whitespace from both ends. -/
def rustTrim (l : List Char) : List Char :=
  ((l.dropWhile Char.isWhitespace).reverse.dropWhile Char.isWhitespace).reverse

/-- `str::replace('\n', "<br />")`. -/
def replaceNewlines : List Char → List Char
  | [] => []
  | c :: rest =>
      if c = '\n' then '<' :: 'b' :: 'r' :: ' ' :: '/' :: '>' :: replaceNewlines rest
      else c :: replaceNewlines rest

/-- Merge-mode synthesis inside `AppState::fire`: starting from the previous
card, overwrite front, back and audio_guide in turn whenever the
corresponding processed draft is non-empty. -/
def mergeWithPrev (p : GuiAddCardsFields) (front back ag : List Char) :
    GuiAddCardsFields :=
  let p1 := if front.isEmpty then p else { p with front := front }
  let p2 := if back.isEmpty then p1 else { p1 with back := back }
  if ag.isEmpty then p2 else { p2 with audio_guide := ag }

/-- Fresh-mode synthesis inside `AppState::fire`, given the fetched snapshot
fields; `sanitize` models `ammonia::Builder::empty().clean`. -/
def freshCard (front back ag : List Char) (sanitize : List Char → List Char)
    (f : GuiCurrentCardFields) : GuiAddCardsFields :=
  let sentence := sanitize f.sentence_back
  { front := if front.isEmpty then f.kanji ++ '[' :: (f.kana ++ [']']) else front
    back := if back.isEmpty then f.meaning else back
    back_paragraph := replaceNewlines (rustTrim (sentence ++ '\n' :: f.picture))
    audio_guide := if ag.isEmpty then f.kanji else ag
    audio := f.kanken_audio }

/-- The card computed by the background task of `AppState::fire` from the raw
drafts: trims the drafts, replaces newlines in the back draft, then merges
into the previous card when one exists, otherwise builds a fresh card from
the fetched snapshot; `none` when the fresh-mode fetch fails or carries no
result. -/
def fireCard (front ag back : List Char) (prev : Option GuiAddCardsFields)
    (sanitize : List Char → List Char) (fetch : FetchOutcome) :
    Option GuiAddCardsFields :=
  let tf := rustTrim front
  let ta := rustTrim ag
  let tb := replaceNewlines (rustTrim back)
  match prev with
  | some p => some (mergeWithPrev p tf tb ta)
  | none =>
      match fetch with
      | FetchOutcome.fetchErr => none
      | FetchOutcome.noResult => none
      | FetchOutcome.ok f => some (freshCard tf tb ta sanitize f)

/-- The item the background task of `AppState::fire` sends on the completion
channel: present exactly when synthesis produced a card and the guiAddCards
submission succeeded; every failure abandons the attempt with no send. -/
def fireSent (front ag back : List Char) (prev : Option GuiAddCardsFields)
    (sanitize : List Char → List Char) (fetch : FetchOutcome)
    (submitOk : Bool) : Option GuiAddCardsFields :=
  match fireCard front ag back prev sanitize fetch with
  | none => none
  | some card => if submitOk then some card else none

/-- `struct AppStateResistReset`: the part of the state that survives reset.
The channel pair is modelled as the FIFO list of pending completions. -/
structure AppStateResistReset where
  queue : List GuiAddCardsFields
  fired : Int
  prev_card : Option GuiAddCardsFields
  maintain_prev : Bool
deriving DecidableEq

/-- `struct AppState`: reset-resistant part plus the editable drafts. -/
structure AppState where
  r : AppStateResistReset
  front : List Char
  audio_guide : List Char
  follow_front : Bool
  back : List Char
deriving DecidableEq

/-- `impl Default for AppStateResistReset`: fresh empty channel, zero fired
counter, no previous card, maintain toggle off. -/
def AppStateResistReset.default : AppStateResistReset :=
  { queue := [], fired := 0, prev_card := none, maintain_prev := false }

/-- `impl Default for AppState`: default reset-resistant part, empty drafts,
follow_front on. -/
def AppState.default : AppState :=
  { r := AppStateResistReset.default, front := [], audio_guide := [],
    follow_front := true, back := [] }

/-- `AppState::reset`: replace the whole state with the default while keeping
the reset-resistant part via `mem::take`. -/
def AppState.reset (s : AppState) : AppState :=
  { AppState.default with r := s.r }

/-- `AppState::audio_guide_follow`: recompute the audio-guide draft from the
front draft. -/
def AppState.audio_guide_follow (s : AppState) : AppState :=
  { s with audio_guide := create_audio_guide s.front }

/-- The foreground effect of clicking Fire in `update`: the fired counter is
incremented immediately; the spawned background task touches the state only
through the completion channel. -/
def AppState.fireClick (s : AppState) : AppState :=
  { s with r := { s.r with fired := s.r.fired + 1 } }

/-- A background task completing: its finalized card is appended to the
channel's pending queue. -/
def AppState.deliver (s : AppState) (c : GuiAddCardsFields) : AppState :=
  { s with r := { s.r with queue := s.r.queue ++ [c] } }

/-- The `try_recv` branch at the top of `update`: drain at most one pending
completion; on receipt, reset and then set prev_card to the received card
when maintain_prev is on, or clear it otherwise. -/
def AppState.poll_completion (s : AppState) : AppState :=
  match s.r.queue with
  | [] => s
  | c :: rest =>
      let s1 := s.reset
      { s1 with
        r := { s1.r with
               queue := rest
               prev_card := if s1.r.maintain_prev then some c else none } }

/-- A concrete snapshot whose headword still contains a bracketed reading,
used to exhibit the raw-headword fallback. -/
def sampleFields : GuiCurrentCardFields :=
  { kanji := "a[b]".toList, kana := [], sentence_front := [], sentence_back := [],
    picture := [], kanken_audio := [], kanken_level := [], meaning := [],
    diagram := [] }

/-- A concrete finalized card. -/
def sampleCard1 : GuiAddCardsFields :=
  { front := "f1".toList, back := [], back_paragraph := [], audio_guide := [],
    audio := [] }

/-- A second concrete finalized card. -/
def sampleCard2 : GuiAddCardsFields :=
  { front := "f2".toList, back := [], back_paragraph := [], audio_guide := [],
    audio := [] }

/-- A concrete session state with two completions pending on the channel. -/
def sampleState : AppState :=
  { r := { queue := [sampleCard1, sampleCard2], fired := 3, prev_card := none,
           maintain_prev := true },
    front := "x".toList, audio_guide := "y".toList, follow_front := false,
    back := "z".toList }

theorem rbAux_none_nil : rbAux none [] = [] := rfl

theorem rbAux_some_nil (acc : List Char) :
    rbAux (some acc) [] = '[' :: acc.reverse := rfl

theorem rbAux_none_open (rest : List Char) :
    rbAux none ('[' :: rest) = rbAux (some []) rest := by
  simp [rbAux]

theorem rbAux_none_other (c : Char) (rest : List Char) (h : c ≠ '[') :
    rbAux none (c :: rest) = c :: rbAux none rest := by
  simp [rbAux, h]

theorem rbAux_some_close (acc rest : List Char) :
    rbAux (some acc) (']' :: rest) = rbAux none rest := by
  simp [rbAux]

theorem rbAux_some_other (acc : List Char) (c : Char) (rest : List Char)
    (h : c ≠ ']') :
    rbAux (some acc) (c :: rest) = rbAux (some (c :: acc)) rest := by
  simp [rbAux, h]

theorem hasClose_eq_false_iff (l : List Char) :
    hasClose l = false ↔ ']' ∉ l := by
  induction l with
  | nil => simp [hasClose]
  | cons c rest ih =>
    constructor
    · intro h hm
      rcases Bool.or_eq_false_iff.mp h with ⟨h1, h2⟩
      rcases List.mem_cons.1 hm with hm | hm
      · exact absurd (beq_iff_eq.2 hm.symm) (by simp [h1])
      · exact ih.1 h2 hm
    · intro h
      have h1 : (c == ']') = false := by
        refine beq_eq_false_iff_ne.2 ?_
        intro hc
        exact h (by simp [hc])
      have h2 : hasClose rest = false :=
        ih.2 (fun hm => h (List.mem_cons_of_mem c hm))
      simp [hasClose, h1, h2]

theorem badPair_of_not_close (l : List Char) (h : ']' ∉ l) :
    badPair l = false := by
  induction l with
  | nil => rfl
  | cons c rest ih =>
    have hr : ']' ∉ rest := fun hm => h (List.mem_cons_of_mem c hm)
    have hc : hasClose rest = false := (hasClose_eq_false_iff rest).2 hr
    simp [badPair, hc, ih hr]

theorem rbAux_sublist (l : List Char) :
    ∀ st : Option (List Char), List.Sublist (rbAux st l) (stRender st ++ l) := by
  induction l with
  | nil =>
    intro st
    cases st with
    | none => simp [rbAux, stRender]
    | some acc => simp [rbAux, stRender]
  | cons c rest ih =>
    intro st
    cases st with
    | none =>
      by_cases h : c = '['
      · subst h
        rw [rbAux_none_open]
        simpa [stRender] using ih (some [])
      · rw [rbAux_none_other c rest h]
        simpa [stRender] using (ih none).cons₂ c
    | some acc =>
      by_cases h : c = ']'
      · subst h
        rw [rbAux_some_close]
        have h1 : List.Sublist (rbAux none rest) rest := by simpa [stRender] using ih none
        have h2 : List.Sublist rest (stRender (some acc) ++ ']' :: rest) := by
          refine List.Sublist.trans ?_ (List.sublist_append_right _ _)
          exact (List.Sublist.refl rest).cons ']'
        exact h1.trans h2
      · rw [rbAux_some_other acc c rest h]
        have := ih (some (c :: acc))
        simpa [stRender, List.reverse_cons, List.append_assoc] using this

theorem rbAux_badPair (l : List Char) :
    ∀ acc : List Char, ']' ∉ acc →
      badPair (rbAux none l) = false ∧ badPair (rbAux (some acc) l) = false := by
  induction l with
  | nil =>
    intro acc hacc
    refine ⟨rfl, ?_⟩
    have hrev : ']' ∉ acc.reverse := by simpa using hacc
    have h1 : hasClose acc.reverse = false := (hasClose_eq_false_iff _).2 hrev
    have h2 : badPair acc.reverse = false := badPair_of_not_close _ hrev
    simp [rbAux, badPair, h1, h2]
  | cons c rest ih =>
    intro acc hacc
    constructor
    · by_cases h : c = '['
      · subst h
        rw [rbAux_none_open]
        exact (ih [] (by simp)).2
      · rw [rbAux_none_other c rest h]
        have hb : (c == '[') = false := by
          simpa using h
        simp [badPair, hb, (ih acc hacc).1]
    · by_cases h : c = ']'
      · subst h
        rw [rbAux_some_close]
        exact (ih [] (by simp)).1
      · rw [rbAux_some_other acc c rest h]
        refine (ih (c :: acc) ?_).2
        intro hm
        rcases List.mem_cons.1 hm with hm | hm
        · exact h hm.symm
        · exact hacc hm

theorem rbAux_some_noClose (l : List Char) :
    ∀ acc : List Char, ']' ∉ l →
      rbAux (some acc) l = '[' :: acc.reverse ++ l := by
  induction l with
  | nil => intro acc _; simp [rbAux]
  | cons c rest ih =>
    intro acc h
    have hc : c ≠ ']' := by
      intro hc
      exact h (by simp [hc])
    rw [rbAux_some_other acc c rest hc]
    rw [ih (c :: acc) (fun hm => h (List.mem_cons_of_mem c hm))]
    simp

theorem removeBrackets_id_of_no_pair (l : List Char) (h : badPair l = false) :
    rbAux none l = l := by
  induction l with
  | nil => rfl
  | cons c rest ih =>
    have hdef : (((c == '[') && hasClose rest) || badPair rest) = false := h
    rcases Bool.or_eq_false_iff.mp hdef with ⟨h1, h2⟩
    by_cases hc : c = '['
    · subst hc
      have hcl : hasClose rest = false := by simpa using h1
      rw [rbAux_none_open]
      rw [rbAux_some_noClose rest [] ((hasClose_eq_false_iff rest).1 hcl)]
      simp
    · rw [rbAux_none_other c rest hc, ih h2]

theorem rbAux_some_to_close (mid : List Char) :
    ∀ (post : List Char) (acc : List Char), ']' ∉ mid →
      rbAux (some acc) (mid ++ ']' :: post) = rbAux none post := by
  induction mid with
  | nil =>
    intro post acc _
    simpa using rbAux_some_close acc post
  | cons c mid ih =>
    intro post acc h
    have hc : c ≠ ']' := by
      intro hc
      exact h (by simp [hc])
    rw [List.cons_append, rbAux_some_other _ c _ hc]
    exact ih post (c :: acc) (fun hm => h (List.mem_cons_of_mem c hm))

theorem fireClick_fired (s : AppState) :
    (s.fireClick).r.fired = s.r.fired + 1 := rfl

/-- Claim C1: merge mode is field-wise override-if-nonempty: the synthesized
front is the draft front when non-empty and the previous card's front
otherwise, symmetrically for back and audio_guide, while back_paragraph and
audio are always carried from the previous card unchanged; and the fire
pipeline in merge mode applies exactly this merge to the trimmed drafts
(with newlines in the back draft replaced). -/
theorem merge_mode_override (p : GuiAddCardsFields) (front back ag : List Char)
    (sanitize : List Char → List Char) (fetch : FetchOutcome) :
    (mergeWithPrev p front back ag).front = (if front = [] then p.front else front) ∧
    (mergeWithPrev p front back ag).back = (if back = [] then p.back else back) ∧
    (mergeWithPrev p front back ag).audio_guide =
      (if ag = [] then p.audio_guide else ag) ∧
    (mergeWithPrev p front back ag).back_paragraph = p.back_paragraph ∧
    (mergeWithPrev p front back ag).audio = p.audio ∧
    fireCard front ag back (some p) sanitize fetch =
      some (mergeWithPrev p (rustTrim front) (replaceNewlines (rustTrim back))
              (rustTrim ag)) := by
  refine ⟨?_, ?_, ?_, ?_, ?_, rfl⟩
  all_goals cases front <;> cases back <;> cases ag <;> simp [mergeWithPrev]

/-- Claim C2: silent-failure contract of a fired attempt: the completion
channel receives an item exactly when synthesis produced a card and the
submission call succeeded; a fresh-mode fetch failure (request error or
absent result) yields no card and no channel item, a submission failure
yields no channel item, and the fired counter is incremented at fire time
on the foreground path regardless. -/
theorem fire_silent_failure (front ag back : List Char)
    (prev : Option GuiAddCardsFields) (sanitize : List Char → List Char)
    (fetch : FetchOutcome) (submitOk : Bool) (c : GuiAddCardsFields)
    (st : AppState) :
    (fireSent front ag back prev sanitize fetch submitOk = some c ↔
      (fireCard front ag back prev sanitize fetch = some c ∧ submitOk = true)) ∧
    fireCard front ag back none sanitize FetchOutcome.fetchErr = none ∧
    fireCard front ag back none sanitize FetchOutcome.noResult = none ∧
    fireSent front ag back none sanitize FetchOutcome.fetchErr submitOk = none ∧
    fireSent front ag back none sanitize FetchOutcome.noResult submitOk = none ∧
    (st.fireClick).r.fired = st.r.fired + 1 := by
  refine ⟨?_, rfl, rfl, rfl, rfl, rfl⟩
  cases hfc : fireCard front ag back prev sanitize fetch with
  | none => simp [fireSent, hfc]
  | some card => cases submitOk <;> simp [fireSent, hfc]

/-- Claim C3: create_audio_guide strips the five characters first and removes
the bracketed spans from the already-stripped string; the empty input yields
the empty output, and the spec's worked example holds. -/
theorem create_audio_guide_pipeline (s : List Char) :
    create_audio_guide s = removeBrackets (stripChars s) ∧
    create_audio_guide [] = [] ∧
    create_audio_guide ("ab[]c[de]f gh[ij]k (lmn) {op}".toList) =
      "abcfghklmnop".toList :=
  ⟨rfl, rfl, by decide⟩

/-- Counterexample to claim C4: on "x[a[b]c]" the code's bracket removal
yields "xc]" (the regex match runs from the first opening bracket to the
first closing bracket), while pairing each closing bracket with the closest
unmatched opening bracket before it would yield "x"; the two disagree. -/
theorem bracket_pairing_counterexample :
    removeBrackets ("x[a[b]c]".toList) = "xc]".toList ∧
    nearestPairRemoval ("x[a[b]c]".toList) = "x".toList ∧
    removeBrackets ("x[a[b]c]".toList) ≠ nearestPairRemoval ("x[a[b]c]".toList) :=
  ⟨by decide, by decide, by decide⟩

/-- Amended claim C4: in the bracket-removal stage a closing bracket closes
the earliest still-open opening bracket, not the nearest preceding one: for
any prefix without an opening bracket and any span without a closing
bracket, the removed span runs from that first opening bracket to the first
following closing bracket, and removal continues on the remainder. -/
theorem bracket_close_earliest_open (pre mid post : List Char)
    (h1 : '[' ∉ pre) (h2 : ']' ∉ mid) :
    removeBrackets (pre ++ '[' :: mid ++ ']' :: post) =
      pre ++ removeBrackets post := by
  unfold removeBrackets
  induction pre with
  | nil =>
    rw [List.nil_append, List.nil_append, List.cons_append, rbAux_none_open]
    exact rbAux_some_to_close mid post [] h2
  | cons c pre ih =>
    have hc : c ≠ '[' := by
      intro h
      exact h1 (by simp [h])
    simp only [List.cons_append]
    rw [rbAux_none_other c _ hc, ih (fun hm => h1 (List.mem_cons_of_mem c hm))]

/-- Witness for the amended claim C4 at the counterexample's input. -/
theorem bracket_close_earliest_open_w :
    removeBrackets ("x".toList ++ '[' :: "a[b".toList ++ ']' :: "c]".toList) =
      "x".toList ++ removeBrackets ("c]".toList) :=
  bracket_close_earliest_open ("x".toList) ("a[b".toList) ("c]".toList)
    (by decide) (by decide)

/-- Claim C5: for every input, the output of create_audio_guide contains none
of the five stripped characters (each occurs zero times) and no surviving
opening bracket followed by a later closing bracket. -/
theorem create_audio_guide_output_clean (s : List Char) :
    (create_audio_guide s).count '(' = 0 ∧
    (create_audio_guide s).count ')' = 0 ∧
    (create_audio_guide s).count '{' = 0 ∧
    (create_audio_guide s).count '}' = 0 ∧
    (create_audio_guide s).count ' ' = 0 ∧
    badPair (create_audio_guide s) = false := by
  have hsub : List.Sublist (create_audio_guide s) (stripChars s) := by
    simpa [stRender, create_audio_guide, removeBrackets] using
      rbAux_sublist (stripChars s) none
  have hmem : ∀ c : Char, isStripped c = true → c ∉ create_audio_guide s := by
    intro c hc hm
    have h2 := (List.mem_filter.1 (hsub.subset hm)).2
    simp [hc] at h2
  refine ⟨?_, ?_, ?_, ?_, ?_, ?_⟩
  · exact List.count_eq_zero.mpr (hmem '(' (by decide))
  · exact List.count_eq_zero.mpr (hmem ')' (by decide))
  · exact List.count_eq_zero.mpr (hmem '{' (by decide))
  · exact List.count_eq_zero.mpr (hmem '}' (by decide))
  · exact List.count_eq_zero.mpr (hmem ' ' (by decide))
  · exact (rbAux_badPair (stripChars s) [] (by simp)).1

/-- Claim C6: in fresh mode the synthesized audio_guide is the trimmed draft
guide when non-empty, otherwise the snapshot's kanji field copied verbatim,
not passed through create_audio_guide; the reactive follow path does apply
create_audio_guide to the front draft, and on the sample snapshot whose
kanji is "a[b]" the fallback keeps "a[b]" even though create_audio_guide
would give "a". -/
theorem fresh_guide_raw_headword (front ag back : List Char)
    (sanitize : List Char → List Char) (f : GuiCurrentCardFields)
    (st : AppState) :
    fireCard front ag back none sanitize (FetchOutcome.ok f) =
      some (freshCard (rustTrim front) (replaceNewlines (rustTrim back))
              (rustTrim ag) sanitize f) ∧
    (freshCard (rustTrim front) (replaceNewlines (rustTrim back)) (rustTrim ag)
        sanitize f).audio_guide =
      (if rustTrim ag = [] then f.kanji else rustTrim ag) ∧
    (st.audio_guide_follow).audio_guide = create_audio_guide st.front ∧
    (freshCard [] [] [] id sampleFields).audio_guide = "a[b]".toList ∧
    create_audio_guide ("a[b]".toList) = "a".toList := by
  refine ⟨rfl, ?_, rfl, by decide, by decide⟩
  cases h : rustTrim ag <;> simp [freshCard, h]

/-- Claim C7: poll_completion drains at most one pending completion per
invocation: with two completions pending, one poll consumes only the first,
leaves the second queued, resets the drafts, keeps the fired counter and the
maintain toggle, and sets prev_card from the polled card according to
maintain_prev; a second poll consumes the second completion and prev_card
then reflects only that most recent one. -/
theorem poll_completion_at_most_one (s : AppState) (c1 c2 : GuiAddCardsFields)
    (rest : List GuiAddCardsFields) (h : s.r.queue = c1 :: c2 :: rest) :
    (s.poll_completion).r.queue = c2 :: rest ∧
    (s.poll_completion).r.prev_card =
      (if s.r.maintain_prev then some c1 else none) ∧
    (s.poll_completion).front = [] ∧
    (s.poll_completion).audio_guide = [] ∧
    (s.poll_completion).back = [] ∧
    (s.poll_completion).follow_front = true ∧
    (s.poll_completion).r.fired = s.r.fired ∧
    (s.poll_completion).r.maintain_prev = s.r.maintain_prev ∧
    (s.poll_completion.poll_completion).r.queue = rest ∧
    (s.poll_completion.poll_completion).r.prev_card =
      (if s.r.maintain_prev then some c2 else none) := by
  rcases s with ⟨⟨q, fired, pc, mp⟩, fr, agd, ff, bk⟩
  simp only at h
  subst h
  exact ⟨rfl, rfl, rfl, rfl, rfl, rfl, rfl, rfl, rfl, rfl⟩

/-- Witness for claim C7 on a concrete state with two pending completions. -/
theorem poll_completion_at_most_one_w :
    (sampleState.poll_completion).r.queue = [sampleCard2] ∧
    (sampleState.poll_completion).r.prev_card =
      (if sampleState.r.maintain_prev then some sampleCard1 else none) ∧
    (sampleState.poll_completion).front = [] ∧
    (sampleState.poll_completion).audio_guide = [] ∧
    (sampleState.poll_completion).back = [] ∧
    (sampleState.poll_completion).follow_front = true ∧
    (sampleState.poll_completion).r.fired = sampleState.r.fired ∧
    (sampleState.poll_completion).r.maintain_prev = sampleState.r.maintain_prev ∧
    (sampleState.poll_completion.poll_completion).r.queue = [] ∧
    (sampleState.poll_completion.poll_completion).r.prev_card =
      (if sampleState.r.maintain_prev then some sampleCard2 else none) :=
  poll_completion_at_most_one sampleState sampleCard1 sampleCard2 [] rfl

/-- Claim C8: the fired counter counts attempts: firing n times increments it
by exactly n, the increment is the synchronous foreground effect of one fire
click, and neither a completion delivery nor a poll of the channel ever
changes it. -/
theorem fired_count_monotonic (s : AppState) (n : Nat) (c : GuiAddCardsFields) :
    (AppState.fireClick^[n] s).r.fired = s.r.fired + n ∧
    (s.fireClick).r.fired = s.r.fired + 1 ∧
    (s.poll_completion).r.fired = s.r.fired ∧
    (s.deliver c).r.fired = s.r.fired := by
  refine ⟨?_, rfl, ?_, rfl⟩
  · induction n with
    | zero => simp
    | succ m ih =>
      rw [Function.iterate_succ_apply', fireClick_fired, ih]
      push_cast
      ring
  · rcases s with ⟨⟨q, fired, pc, mp⟩, fr, agd, ff, bk⟩
    cases q <;> rfl

/-- Claim C9: reset empties the three draft texts and turns follow_front on
while leaving the reset-resistant part (channel queue, fired counter,
prev_card, maintain toggle) unchanged, and reset is idempotent. -/
theorem reset_frame_idempotent (s : AppState) :
    (s.reset).front = [] ∧
    (s.reset).audio_guide = [] ∧
    (s.reset).back = [] ∧
    (s.reset).follow_front = true ∧
    (s.reset).r = s.r ∧
    (s.reset).reset = s.reset :=
  ⟨rfl, rfl, rfl, rfl, rfl, rfl⟩

/-- Claim C10: create_audio_guide is idempotent: applying it to its own
output returns that output unchanged. -/
theorem create_audio_guide_idempotent (s : List Char) :
    create_audio_guide (create_audio_guide s) = create_audio_guide s := by
  have hsub : List.Sublist (rbAux none (stripChars s)) (stripChars s) := by
    simpa [stRender] using rbAux_sublist (stripChars s) none
  have hfix : stripChars (rbAux none (stripChars s)) = rbAux none (stripChars s) := by
    refine List.filter_eq_self.mpr ?_
    intro a ha
    exact (List.mem_filter.1 (hsub.subset ha)).2
  show removeBrackets (stripChars (removeBrackets (stripChars s))) = _
  rw [removeBrackets, removeBrackets, hfix]
  exact removeBrackets_id_of_no_pair _ ((rbAux_badPair (stripChars s) [] (by simp)).1)
